import Mathlib

/-!
# Verification of the normalization and range-filtering pipeline of `src/frontend/src/App.js`

Shallow embedding of the helpers and the four metric normalizers
(`toDay`, `numOrNull`, `sortAsc`, `normSteps`, `normStress`, `normExercise`,
`normSleep`) and of the date filtering (`inRange`, `filterByDays`).

Modelling conventions:

* JS runtime values that can reach the pipeline are `JVal`:
  `null`/`undefined` (collapsed: both are falsy, non-numeric, and print the
  same way through the code paths modelled here), finite numbers as exact
  rationals, `NaN`, `±Infinity`, strings, and booleans.
* JS number arithmetic is interpreted exactly over `ℚ`.  `x.toFixed(1)`
  followed by unary `+` is, on exact values, rounding to the nearest tenth
  with ties toward `+∞`, which is also the spec's `round(x * 10) / 10` with
  JS `Math.round`; both are `round1` below.  The rounding error a double
  representation itself introduces is outside the model.
* JS string comparison (`<`, `>`, `>=` on strings) is lexicographic by
  UTF-16 code unit; on the strings handled here this is exactly the
  character-wise lexicographic order, `List.Lex (· < ·)` on `String.data`,
  packaged as the boolean `sLt`/`sLe` and related to Mathlib's linear order
  on `String` by `sLt_iff`/`sLe_iff`.
* `Array.prototype.sort` is modelled relationally (`SortAscRel`): the
  comparator of `sortAsc` never returns 0, so it is not a consistent
  comparison function in the ECMAScript sense whenever two elements share a
  day key, and the standard then leaves the output order
  implementation-defined; the model guarantees only a permutation, plus the
  sorted order whenever all day keys are pairwise distinct (engines call the
  comparator only on distinct positions, and on pairwise-distinct keys every
  comparison is answered consistently).
* The wall clock of `filterByDays` (`new Date()`, `setDate`,
  `toISOString().slice(0, 10)`) is injected as an explicit calendar day
  `CalDate`; `setDate(getDate() - n)` performs proleptic-Gregorian day
  subtraction, modelled by iterating `prevDay`.  The model assumes a UTC
  environment, where the local calendar used by `setDate`/`getDate` and the
  UTC calendar used by `toISOString` agree.
-/

namespace Garmin

/-- JS runtime values relevant to the pipeline.  `null` stands for both
`null` and `undefined`; `num` carries a finite double as an exact rational;
`NaN` and the two infinities are separate values so that the finiteness
check of `numOrNull` has real content. -/
inductive JVal where
  | null
  | num (q : ℚ)
  | nan
  | inf (pos : Bool)
  | str (s : String)
  | bool (b : Bool)
deriving DecidableEq

/-- JS truthiness of a `JVal`: `null`, `undefined`, `0`, `NaN`, `""` and
`false` are falsy, everything else modelled here is truthy. -/
def jTruthy : JVal → Bool
  | .null => false
  | .num q => decide (q ≠ 0)
  | .nan => false
  | .inf _ => true
  | .str s => decide (s ≠ "")
  | .bool b => b

/-- JS `String(v)` for the values that can reach the `String(d)` branch of
`toDay`.  Integral numbers print exactly as JS prints them; the shortest
round-trip decimal rendering of a non-integral double is not modelled (no
claim below depends on it) and such values fall back to the rational
representation, which is still some string. -/
def jvalToString : JVal → String
  | .null => "null"
  | .num q => if q.den = 1 then toString q.num else toString q
  | .nan => "NaN"
  | .inf b => if b then "Infinity" else "-Infinity"
  | .str s => s
  | .bool b => if b then "true" else "false"

/-- JS `s.slice(0, 10)`: the first 10 UTF-16 units of a string. -/
def slice10 (s : String) : String := ⟨s.data.take 10⟩

/-- `toDay` (App.js line 13):
`(d) => (d ? (d.slice?.(0, 10) ?? String(d).slice(0, 10)) : "")`.
A falsy input yields `""`; a string is sliced directly (strings have a
`slice` method); any other truthy value is converted with `String` first. -/
def toDay (v : JVal) : String :=
  if jTruthy v then
    match v with
    | .str s => slice10 s
    | v => slice10 (jvalToString v)
  else ""

/-- `toDay` restricted to strings, the only case arising once records are
normalized (their `date` field is a string). -/
def toDayStr (s : String) : String := toDay (.str s)

/-- `numOrNull` (App.js line 14):
`(v) => (typeof v === "number" && Number.isFinite(v) ? v : null)`.
Only finite numbers pass; `NaN`, the infinities and every non-number map to
`null`. -/
def numOrNull : JVal → JVal
  | .num q => .num q
  | _ => .null

/-- `+(x).toFixed(1)` on an exact value: round to one decimal, ties toward
`+∞`.  Coincides with the spec's `round1(x) = round(x * 10) / 10` under JS
`Math.round`. -/
def round1 (q : ℚ) : ℚ := ((⌊q * 10 + 1 / 2⌋ : ℤ) : ℚ) / 10

/-- JS `<` on strings: lexicographic by code unit. -/
def sLt (s t : String) : Bool := decide (List.Lex (· < ·) s.data t.data)

/-- JS `<=` (and, with arguments swapped, `>=`) on strings. -/
def sLe (s t : String) : Bool := ! sLt t s

/-! ## Raw and normalized record shapes -/

/-- Raw Steps record: the fields `normSteps` reads.  A field the backend did
not send is `JVal.null` (undefined reads the same through `numOrNull` and
`toDay`). -/
structure RawSteps where
  date : JVal
  steps : JVal
  step_goal : JVal
deriving DecidableEq

/-- Raw Stress record. -/
structure RawStress where
  date : JVal
  stress_avg : JVal
deriving DecidableEq

/-- Raw Exercise record. -/
structure RawExercise where
  date : JVal
  moderate_activity_seconds : JVal
  vigorous_activity_seconds : JVal
  intensity_time_goal_seconds : JVal
  distance : JVal
  calories_active : JVal
  calories_total : JVal
deriving DecidableEq

/-- Raw Sleep record. -/
structure RawSleep where
  date : JVal
  total_sleep_hours : JVal
  deep_sleep_hours : JVal
  light_sleep_hours : JVal
  rem_sleep_hours : JVal
  awake_hours : JVal
deriving DecidableEq

/-- `r?.f`: optional-chained field access; a `null`/`undefined` row yields
`undefined`, modelled as `JVal.null`. -/
def optField {R : Type} (r : Option R) (f : R → JVal) : JVal :=
  match r with
  | some x => f x
  | none => .null

/-- Normalized Steps record (the object literal of App.js lines 25-30). -/
structure StepsRec where
  date : String
  steps : JVal
  step_goal : JVal
  steps_pct_goal : JVal
deriving DecidableEq

/-- Normalized Stress record (lines 34-37). -/
structure StressRec where
  date : String
  stress_avg : JVal
deriving DecidableEq

/-- Normalized Exercise record (lines 54-64). -/
structure ExerciseRec where
  date : String
  moderate_min : JVal
  vigorous_min : JVal
  total_min : JVal
  exercise_pct_goal : JVal
  distance : JVal
  calories_active : JVal
  calories_total : JVal
deriving DecidableEq

/-- Normalized Sleep record (lines 68-75). -/
structure SleepRec where
  date : String
  total_sleep_hours : JVal
  deep_sleep_hours : JVal
  light_sleep_hours : JVal
  rem_sleep_hours : JVal
  awake_hours : JVal
deriving DecidableEq

/-- The per-row body of `normSteps` (App.js lines 19-31).  The condition
`steps != null && goal && goal > 0` is: steps coerced to a number, goal
coerced, truthy (non-null and non-zero) and positive. -/
def stepsOfRow (r : Option RawSteps) : StepsRec :=
  let steps := numOrNull (optField r RawSteps.steps)
  let goal := numOrNull (optField r RawSteps.step_goal)
  let pct : ℚ :=
    match steps, goal with
    | .num s, .num g => if g ≠ 0 ∧ 0 < g then round1 (100 * s / g) else 0
    | _, _ => 0
  { date := toDay (optField r RawSteps.date)
    steps := steps
    step_goal := goal
    steps_pct_goal := .num pct }

/-- The per-row body of `normStress` (lines 34-37). -/
def stressOfRow (r : Option RawStress) : StressRec :=
  { date := toDay (optField r RawStress.date)
    stress_avg := numOrNull (optField r RawStress.stress_avg) }

/-- `x != null ? +(x / 60).toFixed(1) : null`, the seconds-to-minutes
conversion applied to the moderate and vigorous fields (lines 56-57). -/
def minOrNull (v : JVal) : JVal :=
  match v with
  | .num q => .num (round1 (q / 60))
  | _ => .null

/-- `v ?? 0` on a coerced value (which is `num` or `null`). -/
def qOrZero (v : JVal) : ℚ :=
  match v with
  | .num q => q
  | _ => 0

/-- The per-row body of `normExercise` (lines 40-65).  `totalS` is an exact
rational, so the `Number.isFinite(totalS)` guard of line 46 holds
identically and the `null` branch of `totalMin` is unreachable in the
model; likewise the `totalMin != null` conjunct of line 50 is identically
true.  `goalMin && goalMin > 0` is: `goalMin` non-null, non-zero, and
positive. -/
def exerciseOfRow (r : Option RawExercise) : ExerciseRec :=
  let ms := numOrNull (optField r RawExercise.moderate_activity_seconds)
  let vs := numOrNull (optField r RawExercise.vigorous_activity_seconds)
  let goalS := numOrNull (optField r RawExercise.intensity_time_goal_seconds)
  let totalS : ℚ := qOrZero ms + qOrZero vs
  let totalMin : ℚ := round1 (totalS / 60)
  let goalMin : JVal :=
    match goalS with
    | .num g => .num (round1 (g / 60))
    | _ => .null
  let pct : ℚ :=
    match goalMin with
    | .num gm => if gm ≠ 0 ∧ 0 < gm then round1 (100 * totalMin / gm) else 0
    | _ => 0
  { date := toDay (optField r RawExercise.date)
    moderate_min := minOrNull ms
    vigorous_min := minOrNull vs
    total_min := .num totalMin
    exercise_pct_goal := .num pct
    distance := numOrNull (optField r RawExercise.distance)
    calories_active := numOrNull (optField r RawExercise.calories_active)
    calories_total := numOrNull (optField r RawExercise.calories_total) }

/-- The per-row body of `normSleep` (lines 68-75). -/
def sleepOfRow (r : Option RawSleep) : SleepRec :=
  { date := toDay (optField r RawSleep.date)
    total_sleep_hours := numOrNull (optField r RawSleep.total_sleep_hours)
    deep_sleep_hours := numOrNull (optField r RawSleep.deep_sleep_hours)
    light_sleep_hours := numOrNull (optField r RawSleep.light_sleep_hours)
    rem_sleep_hours := numOrNull (optField r RawSleep.rem_sleep_hours)
    awake_hours := numOrNull (optField r RawSleep.awake_hours) }

/-! ## The top-level input of a normalizer, and `(rows || []).map(...)` -/

/-- The JS value a normalizer can be applied to: an array of rows (elements
may themselves be `null`/`undefined`), a nullish value, another falsy value
(`""`, `0`, `NaN`, `false`), or a truthy value that is not an array (a
non-empty string, a non-zero number, a plain object, ...). -/
inductive RowsInput (α : Type) where
  | arr (l : List (Option α))
  | nullish
  | falsy
  | truthyNonArray

/-- The only exception the modelled fragment can raise: calling `.map` on a
value that has no such method. -/
inductive JsError where
  | typeError
deriving DecidableEq

/-- `(rows || []).map(f)`: a falsy `rows` is replaced by `[]` and mapped to
`[]`; an array is mapped elementwise; a truthy non-array survives `||` and
then `.map` raises a `TypeError`. -/
def mapRows {α β : Type} (f : Option α → β) : RowsInput α → Except JsError (List β)
  | .arr l => .ok (l.map f)
  | .nullish => .ok []
  | .falsy => .ok []
  | .truthyNonArray => .error .typeError

/-! ## `sortAsc`, modelled relationally -/

/-- The comparator of `sortAsc` (App.js line 15):
`(a, b) => (toDay(a.date) > toDay(b.date) ? 1 : -1)`.  It never returns 0. -/
def sortCompare {α : Type} (key : α → String) (a b : α) : ℤ :=
  if sLt (key b) (key a) then 1 else -1

/-- `arr.slice().sort(comparator)` under ECMAScript semantics, for the
comparator above.  The output is always a permutation of the input.  The
ordering (and stability) guarantee of `Array.prototype.sort` applies only
when the comparator is a consistent comparison function for the elements;
engines invoke it only on elements at distinct positions, and on those this
comparator is consistent exactly when the day keys are pairwise distinct.
In that case `c(a, b) ≤ 0 ↔ key a ≤ key b`, so any conforming output is
weakly sorted by key.  With tied keys the output order is
implementation-defined and the model imposes nothing beyond the
permutation. -/
def SortAscRel {α : Type} (key : α → String) (l out : List α) : Prop :=
  l.Perm out ∧
    (l.Pairwise (fun a b => key a ≠ key b) →
      out.Pairwise (fun a b => key a ≤ key b))

/-- Sort key of a normalized record: the comparator re-applies `toDay` to
the already-normalized `date` string. -/
def stepsKey (r : StepsRec) : String := toDayStr r.date

/-- Sort key for Stress records. -/
def stressKey (r : StressRec) : String := toDayStr r.date

/-- Sort key for Exercise records. -/
def exerciseKey (r : ExerciseRec) : String := toDayStr r.date

/-- Sort key for Sleep records. -/
def sleepKey (r : SleepRec) : String := toDayStr r.date

/-- `normSteps` (lines 18-31): map each row, then sort; relational because
the sort is. -/
def NormSteps (rows : RowsInput RawSteps) (out : List StepsRec) : Prop :=
  ∃ pre, mapRows stepsOfRow rows = .ok pre ∧ SortAscRel stepsKey pre out

/-- `normStress` (lines 33-37). -/
def NormStress (rows : RowsInput RawStress) (out : List StressRec) : Prop :=
  ∃ pre, mapRows stressOfRow rows = .ok pre ∧ SortAscRel stressKey pre out

/-- `normExercise` (lines 39-65). -/
def NormExercise (rows : RowsInput RawExercise) (out : List ExerciseRec) : Prop :=
  ∃ pre, mapRows exerciseOfRow rows = .ok pre ∧ SortAscRel exerciseKey pre out

/-- `normSleep` (lines 67-75). -/
def NormSleep (rows : RowsInput RawSleep) (out : List SleepRec) : Prop :=
  ∃ pre, mapRows sleepOfRow rows = .ok pre ∧ SortAscRel sleepKey pre out

/-! ## Date filtering -/

/-- A calendar day of the proleptic Gregorian calendar, the day part of a JS
`Date` in a UTC environment. -/
structure CalDate where
  y : ℕ
  m : ℕ
  d : ℕ
deriving DecidableEq

/-- Gregorian leap-year rule, as implemented by the JS `Date` calendar. -/
def isLeap (y : ℕ) : Bool :=
  decide ((y % 4 = 0 ∧ ¬ y % 100 = 0) ∨ y % 400 = 0)

/-- Length of month `m` of year `y` in the Gregorian calendar. -/
def daysInMonth (y m : ℕ) : ℕ :=
  if m = 2 then (if isLeap y then 29 else 28)
  else if m = 4 ∨ m = 6 ∨ m = 9 ∨ m = 11 then 30
  else 31

/-- A well-formed calendar day. -/
def ValidDate (t : CalDate) : Prop :=
  1 ≤ t.m ∧ t.m ≤ 12 ∧ 1 ≤ t.d ∧ t.d ≤ daysInMonth t.y t.m

instance (t : CalDate) : Decidable (ValidDate t) := by
  unfold ValidDate
  infer_instance

/-- The previous calendar day. -/
def prevDay (t : CalDate) : CalDate :=
  if 2 ≤ t.d then ⟨t.y, t.m, t.d - 1⟩
  else if 2 ≤ t.m then ⟨t.y, t.m - 1, daysInMonth t.y (t.m - 1)⟩
  else ⟨t.y - 1, 12, 31⟩

/-- `cutoff.setDate(cutoff.getDate() - n)`: subtract `n` calendar days.
JS `Date` normalizes an out-of-range day-of-month by cascading borrows,
which is exactly repeated day decrement. -/
def subDays (t : CalDate) : ℕ → CalDate
  | 0 => t
  | n + 1 => prevDay (subDays t n)

/-- Decimal digit character. -/
def dch (n : ℕ) : Char := Char.ofNat (48 + n % 10)

/-- Two-digit zero-padded decimal rendering (month and day of
`toISOString`). -/
def pad2 (n : ℕ) : List Char := [dch (n / 10), dch n]

/-- Four-digit zero-padded decimal rendering (year of `toISOString`, for
years up to 9999). -/
def pad4 (n : ℕ) : List Char := [dch (n / 1000), dch (n / 100), dch (n / 10), dch n]

/-- `toISOString().slice(0, 10)`: the canonical `YYYY-MM-DD` day key of a
calendar day. -/
def dayKey (t : CalDate) : String :=
  ⟨pad4 t.y ++ '-' :: (pad2 t.m ++ '-' :: pad2 t.d)⟩

/-- The `rangeDays` React state: one of the finite presets or `Infinity`
(the "All" preset).  `isFinite(rangeDays)` distinguishes the two. -/
inductive RangeDays where
  | finite (n : ℕ)
  | infinite
deriving DecidableEq

/-- The pieces of React state `filterByDays` closes over. -/
structure Window where
  useCustomRange : Bool
  customStart : String
  customEnd : String
  rangeDays : RangeDays
deriving DecidableEq

/-- `inRange` (App.js lines 247-254): re-canonicalize all three strings with
`toDay`, reject an empty date, then compare lexicographically against the
non-empty bounds. -/
def inRange (dateStr start stop : String) : Bool :=
  if toDayStr dateStr = "" then false
  else if toDayStr start ≠ "" ∧ sLt (toDayStr dateStr) (toDayStr start) = true then false
  else if toDayStr stop ≠ "" ∧ sLt (toDayStr stop) (toDayStr dateStr) = true then false
  else true

/-- `filterByDays` (App.js lines 256-268), with the wall clock injected as
`today` and the element type abstracted (the JS function is untyped and is
applied to all four record shapes; `dateOf` reads the `date` field). -/
def filterByDays {α : Type} (dateOf : α → String) (today : CalDate)
    (w : Window) (arr : List α) : List α :=
  if arr.isEmpty then arr
  else if w.useCustomRange = true ∧ (w.customStart ≠ "" ∨ w.customEnd ≠ "") then
    arr.filter fun r => inRange (dateOf r) w.customStart w.customEnd
  else
    match w.rangeDays with
    | .infinite => arr
    | .finite n => arr.filter fun r => sLe (dayKey (subDays today n)) (toDayStr (dateOf r))

/-! ## Spec-side definitions (for refinement claims)

These follow the words of the specification, not the code, and are compared
with the code model in the theorems below. -/

/-- Modelled from the spec, section 4.3: the shared derived-percentage rule.
`pct = round1(100 * numerator / denominator)` when the denominator is
present and positive and the numerator is present; otherwise `pct = 0`. -/
def pctGoalSpec (numerator denominator : JVal) : JVal :=
  match numerator, denominator with
  | .num n, .num d => if 0 < d then .num (round1 (100 * n / d)) else .num 0
  | _, _ => .num 0

/-- Modelled from the spec, section 8: a raw seconds value with an absent or
non-numeric side treated as 0. -/
def secOr0 (v : JVal) : ℚ :=
  match v with
  | .num q => q
  | _ => 0

/-- Modelled from the spec, section 4.3: the Exercise goal in minutes,
`round1(intensity_time_goal_seconds / 60)`, absent when the raw goal is
absent or non-numeric. -/
def goalMinSpec (r : Option RawExercise) : JVal :=
  match numOrNull (optField r RawExercise.intensity_time_goal_seconds) with
  | .num g => .num (round1 (g / 60))
  | _ => .null

/-! ## Basic lemmas about the embedding -/

theorem sLt_iff {s t : String} : sLt s t = true ↔ s < t := by
  rw [String.lt_iff_toList_lt]
  simp only [sLt, decide_eq_true_eq]
  exact Iff.rfl

theorem sLe_iff {s t : String} : sLe s t = true ↔ s ≤ t := by
  simp only [sLe, Bool.not_eq_true', ← Bool.not_eq_true, sLt_iff]
  exact not_lt

theorem numOrNullShape (v : JVal) :
    numOrNull v = .null ∨ ∃ q : ℚ, numOrNull v = .num q := by
  cases v <;> simp [numOrNull]

theorem toDayNull : toDay .null = "" := rfl

theorem toDayFalsy {v : JVal} (h : jTruthy v = false) : toDay v = "" := by
  simp [toDay, h]

theorem toDayLen (v : JVal) : (toDay v).data.length ≤ 10 := by
  unfold toDay
  split_ifs
  · cases v <;> simp [slice10, List.length_take]
  · simp

theorem toDayStrEq {s : String} (h : s.data.length ≤ 10) : toDayStr s = s := by
  by_cases hs : s = ""
  · subst hs
    rfl
  · show toDay (.str s) = s
    unfold toDay
    rw [if_pos (by simp [jTruthy, hs])]
    show slice10 s = s
    unfold slice10
    rw [List.take_of_length_le h]

theorem mapRowsOk {α β : Type} {f : Option α → β} {rows : RowsInput α}
    {pre : List β} (h : mapRows f rows = .ok pre) :
    ∃ l : List (Option α), pre = l.map f := by
  cases rows with
  | arr l => exact ⟨l, by simpa [mapRows] using h.symm⟩
  | nullish => exact ⟨[], by simpa [mapRows] using h.symm⟩
  | falsy => exact ⟨[], by simpa [mapRows] using h.symm⟩
  | truthyNonArray => simp [mapRows] at h

/-- Any record of a conforming normalizer output is the image of some raw
row under the per-row body. -/
theorem normMem {α β : Type} {key : β → String} {f : Option α → β}
    {rows : RowsInput α} {out : List β} {rec : β}
    (h : ∃ pre, mapRows f rows = .ok pre ∧ SortAscRel key pre out)
    (hm : rec ∈ out) : ∃ row : Option α, rec = f row := by
  obtain ⟨pre, hok, hperm, _⟩ := h
  obtain ⟨l, rfl⟩ := mapRowsOk hok
  have hpre : rec ∈ l.map f := hperm.mem_iff.mpr hm
  obtain ⟨row, _, hrow⟩ := List.mem_map.mp hpre
  exact ⟨row, hrow.symm⟩

/-! ## Lexicographic order of rendered day keys -/

theorem lexAppendLeft (p : List Char) {s t : List Char}
    (h : List.Lex (· < ·) s t) : List.Lex (· < ·) (p ++ s) (p ++ t) := by
  induction p with
  | nil => exact h
  | cons c cs ih => exact List.Lex.cons ih

theorem lexAppendSameLen : ∀ {s t : List Char}, s.length = t.length →
    List.Lex (· < ·) s t → ∀ u v : List Char,
    List.Lex (· < ·) (s ++ u) (t ++ v) := by
  intro s
  induction s with
  | nil =>
    intro t hlen h u v
    cases h with
    | nil => simp at hlen
  | cons a s1 ih =>
    intro t hlen h u v
    cases t with
    | nil => simp at hlen
    | cons b t1 =>
      cases h with
      | rel hr => exact List.Lex.rel hr
      | cons h1 => exact List.Lex.cons (ih (by simpa using hlen) h1 u v)

theorem dchLtDigits : ∀ a, a < 10 → ∀ b, b < 10 → a < b → dch a < dch b := by
  decide

theorem dchCongr {a b : ℕ} (h : a % 10 = b % 10) : dch a = dch b := by
  unfold dch
  rw [h]

theorem dchLtOfMod {a b : ℕ} (h : a % 10 < b % 10) : dch a < dch b := by
  have e1 : dch a = dch (a % 10) := dchCongr (by omega)
  have e2 : dch b = dch (b % 10) := dchCongr (by omega)
  rw [e1, e2]
  exact dchLtDigits (a % 10) (by omega) (b % 10) (by omega) h

theorem pad2Lex {a b : ℕ} (hab : a < b) (hb : b ≤ 99) :
    List.Lex (· < ·) (pad2 a) (pad2 b) := by
  unfold pad2
  rcases Nat.lt_trichotomy (a / 10 % 10) (b / 10 % 10) with h | h | h
  · exact List.Lex.rel (dchLtOfMod h)
  · rw [dchCongr h]
    exact List.Lex.cons (List.Lex.rel (dchLtOfMod (by omega)))
  · exact absurd h (by omega)

theorem pad4Lex {a b : ℕ} (hab : a < b) (hb : b ≤ 9999) :
    List.Lex (· < ·) (pad4 a) (pad4 b) := by
  unfold pad4
  rcases Nat.lt_trichotomy (a / 1000 % 10) (b / 1000 % 10) with h1 | h1 | h1
  · exact List.Lex.rel (dchLtOfMod h1)
  · rw [dchCongr h1]
    refine List.Lex.cons ?_
    rcases Nat.lt_trichotomy (a / 100 % 10) (b / 100 % 10) with h2 | h2 | h2
    · exact List.Lex.rel (dchLtOfMod h2)
    · rw [dchCongr h2]
      refine List.Lex.cons ?_
      rcases Nat.lt_trichotomy (a / 10 % 10) (b / 10 % 10) with h3 | h3 | h3
      · exact List.Lex.rel (dchLtOfMod h3)
      · rw [dchCongr h3]
        exact List.Lex.cons (List.Lex.rel (dchLtOfMod (by omega)))
      · exact absurd h3 (by omega)
    · exact absurd h2 (by omega)
  · exact absurd h1 (by omega)

/-! ## Calendar lemmas -/

theorem daysInMonthPos (y m : ℕ) : 1 ≤ daysInMonth y m := by
  unfold daysInMonth
  split_ifs <;> omega

theorem daysInMonthLe (y m : ℕ) : daysInMonth y m ≤ 31 := by
  unfold daysInMonth
  split_ifs <;> omega

theorem prevDayValid {t : CalDate} (hv : ValidDate t) :
    ValidDate (prevDay t) := by
  obtain ⟨h1, h2, h3, h4⟩ := hv
  unfold prevDay ValidDate
  split_ifs with ha hb <;> dsimp only
  · exact ⟨h1, h2, by omega, by omega⟩
  · exact ⟨by omega, by omega, daysInMonthPos _ _, le_refl _⟩
  · refine ⟨by norm_num, by norm_num, by norm_num, ?_⟩
    simp [daysInMonth]

theorem prevDayYLe (t : CalDate) : (prevDay t).y ≤ t.y := by
  unfold prevDay
  split_ifs <;> simp

theorem subDaysValid {t : CalDate} (hv : ValidDate t) (n : ℕ) :
    ValidDate (subDays t n) := by
  induction n with
  | zero => exact hv
  | succ k ih => exact prevDayValid ih

theorem subDaysYLe (t : CalDate) (n : ℕ) : (subDays t n).y ≤ t.y := by
  induction n with
  | zero => exact le_refl _
  | succ k ih => exact le_trans (prevDayYLe _) ih

/-- One calendar step back strictly decreases the rendered day key, for a
valid date with a positive, at most four-digit year. -/
theorem dayKeyPrevLt {t : CalDate} (hv : ValidDate t) (hy1 : 1 ≤ t.y)
    (hy2 : t.y ≤ 9999) : dayKey (prevDay t) < dayKey t := by
  obtain ⟨h1, h2, h3, h4⟩ := hv
  have hd31 : t.d ≤ 31 := le_trans h4 (daysInMonthLe _ _)
  rw [String.lt_iff_toList_lt]
  show List.Lex (· < ·) (dayKey (prevDay t)).data (dayKey t).data
  unfold prevDay
  split_ifs with ha hb
  · show List.Lex (· < ·)
      (pad4 t.y ++ '-' :: (pad2 t.m ++ '-' :: pad2 (t.d - 1)))
      (pad4 t.y ++ '-' :: (pad2 t.m ++ '-' :: pad2 t.d))
    refine lexAppendLeft _ (List.Lex.cons (lexAppendLeft _ (List.Lex.cons ?_)))
    exact @pad2Lex (t.d - 1) t.d (by omega) (by omega)
  · show List.Lex (· < ·)
      (pad4 t.y ++ '-' :: (pad2 (t.m - 1) ++ '-' :: pad2 (daysInMonth t.y (t.m - 1))))
      (pad4 t.y ++ '-' :: (pad2 t.m ++ '-' :: pad2 t.d))
    refine lexAppendLeft _ (List.Lex.cons ?_)
    exact @lexAppendSameLen (pad2 (t.m - 1)) (pad2 t.m) rfl (@pad2Lex (t.m - 1) t.m (by omega) (by omega)) _ _
  · show List.Lex (· < ·)
      (pad4 (t.y - 1) ++ '-' :: (pad2 12 ++ '-' :: pad2 31))
      (pad4 t.y ++ '-' :: (pad2 t.m ++ '-' :: pad2 t.d))
    exact @lexAppendSameLen (pad4 (t.y - 1)) (pad4 t.y) rfl
      (@pad4Lex (t.y - 1) t.y (by omega) hy2)
      ('-' :: (pad2 12 ++ '-' :: pad2 31)) ('-' :: (pad2 t.m ++ '-' :: pad2 t.d))

theorem subDaysStepLt {t : CalDate} (hv : ValidDate t) (hy2 : t.y ≤ 9999)
    {n : ℕ} (hy1 : 1 ≤ (subDays t n).y) :
    dayKey (subDays t (n + 1)) < dayKey (subDays t n) :=
  dayKeyPrevLt (subDaysValid hv n) hy1 (le_trans (subDaysYLe t n) hy2)

theorem dayKeyLen (t : CalDate) : (dayKey t).data.length = 10 := by
  simp [dayKey, pad4, pad2]

theorem dayKeyNeEmpty (t : CalDate) : dayKey t ≠ "" := by
  intro h
  have := congrArg (fun s => s.data.length) h
  simp [dayKeyLen t] at this

theorem toDayStrDayKey (t : CalDate) : toDayStr (dayKey t) = dayKey t :=
  toDayStrEq (le_of_eq (dayKeyLen t))

/-! ## Invariant predicates for normalized records -/

/-- A field value that is a finite number or the absence marker — never
`NaN`, an infinity, or a non-numeric value. -/
def NumOrAbsent (v : JVal) : Prop := v = .null ∨ ∃ q : ℚ, v = .num q

/-- A field value that is a concrete finite number. -/
def IsNum (v : JVal) : Prop := ∃ q : ℚ, v = .num q

/-- Data-model invariant of a normalized Steps record. -/
def StepsInv (rec : StepsRec) : Prop :=
  rec.date.data.length ≤ 10 ∧ NumOrAbsent rec.steps ∧
    NumOrAbsent rec.step_goal ∧ IsNum rec.steps_pct_goal

/-- Data-model invariant of a normalized Stress record. -/
def StressInv (rec : StressRec) : Prop :=
  rec.date.data.length ≤ 10 ∧ NumOrAbsent rec.stress_avg

/-- Data-model invariant of a normalized Exercise record. -/
def ExerciseInv (rec : ExerciseRec) : Prop :=
  rec.date.data.length ≤ 10 ∧ NumOrAbsent rec.moderate_min ∧
    NumOrAbsent rec.vigorous_min ∧ IsNum rec.total_min ∧
    IsNum rec.exercise_pct_goal ∧ NumOrAbsent rec.distance ∧
    NumOrAbsent rec.calories_active ∧ NumOrAbsent rec.calories_total

/-- Data-model invariant of a normalized Sleep record. -/
def SleepInv (rec : SleepRec) : Prop :=
  rec.date.data.length ≤ 10 ∧ NumOrAbsent rec.total_sleep_hours ∧
    NumOrAbsent rec.deep_sleep_hours ∧ NumOrAbsent rec.light_sleep_hours ∧
    NumOrAbsent rec.rem_sleep_hours ∧ NumOrAbsent rec.awake_hours

theorem minOrNullShape (v : JVal) :
    minOrNull v = .null ∨ ∃ q : ℚ, minOrNull v = .num q := by
  cases v <;> simp [minOrNull]

theorem stepsInvOfRow (r : Option RawSteps) : StepsInv (stepsOfRow r) := by
  refine ⟨toDayLen _, ?_, ?_, ?_⟩
  · exact numOrNullShape _
  · exact numOrNullShape _
  · exact ⟨_, rfl⟩

theorem stressInvOfRow (r : Option RawStress) : StressInv (stressOfRow r) := by
  exact ⟨toDayLen _, numOrNullShape _⟩

theorem exerciseInvOfRow (r : Option RawExercise) :
    ExerciseInv (exerciseOfRow r) := by
  refine ⟨toDayLen _, ?_, ?_, ⟨_, rfl⟩, ⟨_, rfl⟩, ?_, ?_, ?_⟩
  · exact minOrNullShape _
  · exact minOrNullShape _
  · exact numOrNullShape _
  · exact numOrNullShape _
  · exact numOrNullShape _

theorem sleepInvOfRow (r : Option RawSleep) : SleepInv (sleepOfRow r) := by
  exact ⟨toDayLen _, numOrNullShape _, numOrNullShape _, numOrNullShape _,
    numOrNullShape _, numOrNullShape _⟩

/-! ## Claim theorems -/

/-- C1: For every raw Steps record and every raw Exercise record, the
goal-percentage field (`steps_pct_goal`, respectively `exercise_pct_goal`)
equals the spec's shared derived-percentage rule
`round1(100 * numerator / denominator)` — numerator the coerced `steps`
(resp. the normalized `total_min`), denominator the coerced `step_goal`
(resp. the goal in minutes, `round1(intensity_time_goal_seconds / 60)`) —
whenever the numerator is present and the denominator present and positive,
and `0` otherwise (denominator absent, zero, or negative, or numerator
absent); the field is in every case a concrete number, never absent. -/
theorem pct_goal_follows_spec (rs : Option RawSteps) (re : Option RawExercise) :
    (stepsOfRow rs).steps_pct_goal
        = pctGoalSpec (numOrNull (optField rs RawSteps.steps))
            (numOrNull (optField rs RawSteps.step_goal))
      ∧ (exerciseOfRow re).exercise_pct_goal
        = pctGoalSpec (exerciseOfRow re).total_min (goalMinSpec re) := by
  constructor
  · rcases numOrNullShape (optField rs RawSteps.steps) with h1 | ⟨s, h1⟩ <;>
      rcases numOrNullShape (optField rs RawSteps.step_goal) with h2 | ⟨g, h2⟩
    · simp [stepsOfRow, pctGoalSpec, h1, h2]
    · simp [stepsOfRow, pctGoalSpec, h1, h2]
    · simp [stepsOfRow, pctGoalSpec, h1, h2]
    · by_cases hg : 0 < g
      · simp [stepsOfRow, pctGoalSpec, h1, h2, hg, hg.ne']
      · simp [stepsOfRow, pctGoalSpec, h1, h2, hg]
  · rcases numOrNullShape (optField re RawExercise.intensity_time_goal_seconds)
      with hg | ⟨g, hg⟩
    · simp [exerciseOfRow, pctGoalSpec, goalMinSpec, hg]
    · by_cases hgm : 0 < round1 (g / 60)
      · simp [exerciseOfRow, pctGoalSpec, goalMinSpec, hg, hgm, hgm.ne']
      · simp [exerciseOfRow, pctGoalSpec, goalMinSpec, hg, hgm]

/-- C2: For every raw Exercise record, the normalized `total_min` equals
`round1((moderate_seconds_or_0 + vigorous_seconds_or_0) / 60)`: the two
seconds values are summed first — an absent or non-numeric side counting as
0 — and only then converted to minutes and rounded to one decimal. -/
theorem total_min_follows_spec (re : Option RawExercise) :
    (exerciseOfRow re).total_min
      = .num (round1 ((secOr0 (optField re RawExercise.moderate_activity_seconds)
          + secOr0 (optField re RawExercise.vigorous_activity_seconds)) / 60)) := by
  have hqz : ∀ v : JVal, qOrZero (numOrNull v) = secOr0 v := by
    intro v
    cases v <;> rfl
  simp [exerciseOfRow, hqz]

/-- C9: if both `moderate_activity_seconds` and `vigorous_activity_seconds`
coerce to absent (missing or non-numeric), the normalized `total_min` is the
present number 0 — not the absence marker — and `exercise_pct_goal` is 0
whether or not a positive goal is present. -/
theorem exercise_absent_seconds (re : Option RawExercise)
    (hm : numOrNull (optField re RawExercise.moderate_activity_seconds) = .null)
    (hv : numOrNull (optField re RawExercise.vigorous_activity_seconds) = .null) :
    (exerciseOfRow re).total_min = .num 0 ∧
      (exerciseOfRow re).exercise_pct_goal = .num 0 := by
  have h0 : round1 0 = 0 := by norm_num [round1]
  rcases numOrNullShape (optField re RawExercise.intensity_time_goal_seconds)
    with hg | ⟨g, hg⟩
  · simp [exerciseOfRow, hm, hv, hg, qOrZero, h0]
  · simp [exerciseOfRow, hm, hv, hg, qOrZero, h0]

/-- Concrete raw Exercise row for the C9 witness: both activity fields
unusable (a string and an absent value), goal present and positive. -/
def exRow9 : Option RawExercise :=
  some ⟨.str "2025-06-01", .str "abc", .null, .num 600, .null, .null, .null⟩

/-- C9 witness at `exRow9`. -/
theorem exercise_absent_seconds_witness :
    numOrNull (optField exRow9 RawExercise.moderate_activity_seconds) = .null ∧
      numOrNull (optField exRow9 RawExercise.vigorous_activity_seconds) = .null ∧
      ((exerciseOfRow exRow9).total_min = .num 0 ∧
        (exerciseOfRow exRow9).exercise_pct_goal = .num 0) :=
  ⟨rfl, rfl, exercise_absent_seconds exRow9 rfl rfl⟩

/-- C10: a `null`/`undefined` element of the input sequence does not raise
an error in any of the four normalizers: it is normalized to a record with
an empty date string, all coerced numeric fields absent, and percentage
fields 0 where the metric has them. -/
theorem null_element_normalized :
    stepsOfRow none = ⟨"", .null, .null, .num 0⟩ ∧
      stressOfRow none = ⟨"", .null⟩ ∧
      exerciseOfRow none = ⟨"", .null, .null, .num 0, .num 0, .null, .null, .null⟩ ∧
      sleepOfRow none = ⟨"", .null, .null, .null, .null, .null⟩ := by
  have h0 : round1 (0 : ℚ) = 0 := by norm_num [round1]
  refine ⟨rfl, rfl, ?_, rfl⟩
  simp [exerciseOfRow, optField, numOrNull, qOrZero, minOrNull, h0, toDayNull]

/-- C3: every record produced by any of the four normalizers, for any raw
input whatsoever, satisfies the data-model invariant: numeric fields are a
finite number or the absence marker (never `NaN`, `Infinity`, or a
non-numeric value), the `date` field is a string of at most 10 characters,
and an absent (falsy) source date normalizes to the empty string. -/
theorem normalized_invariant :
    (∀ rows out, NormSteps rows out → ∀ rec ∈ out, StepsInv rec) ∧
      (∀ rows out, NormStress rows out → ∀ rec ∈ out, StressInv rec) ∧
      (∀ rows out, NormExercise rows out → ∀ rec ∈ out, ExerciseInv rec) ∧
      (∀ rows out, NormSleep rows out → ∀ rec ∈ out, SleepInv rec) ∧
      (∀ v : JVal, jTruthy v = false → toDay v = "") := by
  refine ⟨?_, ?_, ?_, ?_, fun v h => toDayFalsy h⟩
  · intro rows out h rec hmem
    unfold NormSteps at h
    obtain ⟨row, rfl⟩ := normMem h hmem
    exact stepsInvOfRow row
  · intro rows out h rec hmem
    unfold NormStress at h
    obtain ⟨row, rfl⟩ := normMem h hmem
    exact stressInvOfRow row
  · intro rows out h rec hmem
    unfold NormExercise at h
    obtain ⟨row, rfl⟩ := normMem h hmem
    exact exerciseInvOfRow row
  · intro rows out h rec hmem
    unfold NormSleep at h
    obtain ⟨row, rfl⟩ := normMem h hmem
    exact sleepInvOfRow row

/-- Concrete raw Steps row for the C3 witness. -/
def stRow3 : Option RawSteps := some ⟨.str "2025-06-01", .num 5000, .num 10000⟩

/-- C3 witness: a conforming singleton run of each normalizer, with the
invariant instantiated on its record. -/
theorem normalized_invariant_witness :
    NormSteps (.arr [stRow3]) [stepsOfRow stRow3] ∧
      StepsInv (stepsOfRow stRow3) ∧ StressInv (stressOfRow none) ∧
      ExerciseInv (exerciseOfRow none) ∧ SleepInv (sleepOfRow none) := by
  have hs : NormSteps (.arr [stRow3]) [stepsOfRow stRow3] :=
    ⟨[stepsOfRow stRow3], rfl, List.Perm.refl _,
      fun _ => List.pairwise_singleton _ _⟩
  have hst : NormStress (.arr [none]) [stressOfRow none] :=
    ⟨[stressOfRow none], rfl, List.Perm.refl _,
      fun _ => List.pairwise_singleton _ _⟩
  have hex : NormExercise (.arr [none]) [exerciseOfRow none] :=
    ⟨[exerciseOfRow none], rfl, List.Perm.refl _,
      fun _ => List.pairwise_singleton _ _⟩
  have hsl : NormSleep (.arr [none]) [sleepOfRow none] :=
    ⟨[sleepOfRow none], rfl, List.Perm.refl _,
      fun _ => List.pairwise_singleton _ _⟩
  exact ⟨hs,
    normalized_invariant.1 _ _ hs _ (List.mem_singleton_self _),
    normalized_invariant.2.1 _ _ hst _ (List.mem_singleton_self _),
    normalized_invariant.2.2.1 _ _ hex _ (List.mem_singleton_self _),
    normalized_invariant.2.2.2.1 _ _ hsl _ (List.mem_singleton_self _)⟩

/-- C8 counterexample: applied to a truthy non-array value (a non-empty
string, a non-zero number, a plain object, ...), `(rows || [])` keeps the
value and `.map` raises a `TypeError`; the normalizer neither returns the
empty sequence nor any defined value. -/
theorem normSteps_truthy_nonarray_throws :
    mapRows stepsOfRow RowsInput.truthyNonArray = .error .typeError := rfl

/-- C8 amended: each normalizer maps an absent (nullish) or otherwise falsy
input to the empty sequence, and never throws on an array input, however
malformed its elements; only a truthy non-array input throws (see the
counterexample), and every call site guards against that with
`Array.isArray`. -/
theorem normalizers_total_on_arrays :
    (mapRows stepsOfRow .nullish = .ok [] ∧ mapRows stepsOfRow .falsy = .ok [] ∧
        ∀ l, mapRows stepsOfRow (.arr l) = .ok (l.map stepsOfRow)) ∧
      (mapRows stressOfRow .nullish = .ok [] ∧ mapRows stressOfRow .falsy = .ok [] ∧
        ∀ l, mapRows stressOfRow (.arr l) = .ok (l.map stressOfRow)) ∧
      (mapRows exerciseOfRow .nullish = .ok [] ∧ mapRows exerciseOfRow .falsy = .ok [] ∧
        ∀ l, mapRows exerciseOfRow (.arr l) = .ok (l.map exerciseOfRow)) ∧
      (mapRows sleepOfRow .nullish = .ok [] ∧ mapRows sleepOfRow .falsy = .ok [] ∧
        ∀ l, mapRows sleepOfRow (.arr l) = .ok (l.map sleepOfRow)) :=
  ⟨⟨rfl, rfl, fun _ => rfl⟩, ⟨rfl, rfl, fun _ => rfl⟩,
    ⟨rfl, rfl, fun _ => rfl⟩, ⟨rfl, rfl, fun _ => rfl⟩⟩

/-! ## The sorter (C4, C5) -/

/-- Two distinct records sharing day key 2025-06-01 (for C4). -/
def tieA : StepsRec := ⟨"2025-06-01", .str "a", .null, .null⟩

/-- Second record of the tied pair for C4. -/
def tieB : StepsRec := ⟨"2025-06-01", .str "b", .null, .null⟩

/-- Two distinct records sharing day key 2025-07-01 (for C5). -/
def tieC : StepsRec := ⟨"2025-07-01", .str "c", .null, .null⟩

/-- Second record of the tied pair for C5. -/
def tieD : StepsRec := ⟨"2025-07-01", .str "d", .null, .null⟩

/-- C4 (code bug): on a tied pair the comparator of `sortAsc` returns -1 in
both argument orders (it never returns 0), so it is not a consistent
comparison function and ECMAScript places no stability — nor any ordering —
constraint on the result; the output reversing an adjacent equal-date pair,
which V8's sort actually produces for this comparator, is a conforming
result of `sortAsc`, violating the claimed preservation of input order on
equal dates. -/
theorem sortAsc_tie_order_unspecified :
    stepsKey tieA = stepsKey tieB ∧
      sortCompare stepsKey tieA tieB = -1 ∧
      sortCompare stepsKey tieB tieA = -1 ∧
      SortAscRel stepsKey [tieA, tieB] [tieB, tieA] ∧
      decide ([tieB, tieA] = [tieA, tieB]) = false := by
  refine ⟨rfl, rfl, rfl, ⟨List.Perm.swap _ _ _, fun h => ?_⟩, by decide⟩
  have hne := List.rel_of_pairwise_cons h (List.mem_singleton_self tieB)
  exact absurd rfl hne

/-- C5 (code bug): with a tied pair, one conforming pass of `sortAsc` maps
`[C, D]` to `[D, C]` and a second conforming pass maps `[D, C]` back to
`[C, D]` (V8's sort does exactly this), so `sort(sort(x))` need not equal
`sort(x)` as a value. -/
theorem sortAsc_not_idempotent :
    SortAscRel stepsKey [tieC, tieD] [tieD, tieC] ∧
      SortAscRel stepsKey [tieD, tieC] [tieC, tieD] ∧
      decide ([tieD, tieC] = [tieC, tieD]) = false := by
  refine ⟨⟨List.Perm.swap _ _ _, fun h => ?_⟩,
    ⟨List.Perm.swap _ _ _, fun h => ?_⟩, by decide⟩
  · have hne := List.rel_of_pairwise_cons h (List.mem_singleton_self tieD)
    exact absurd rfl hne
  · have hne := List.rel_of_pairwise_cons h (List.mem_singleton_self tieC)
    exact absurd rfl hne

/-! ## The range filter (C6, C7) -/

theorem boolEqDecide {b : Bool} {P : Prop} [Decidable P] (h : b = true ↔ P) :
    b = decide P := by
  by_cases hp : P
  · simp [hp, h.mpr hp]
  · have hb : b = false := by
      cases hbb : b
      · rfl
      · exact absurd (h.mp hbb) hp
    simp [hb, hp]

theorem sLeEqDecide {s t : String} : sLe s t = decide (s ≤ t) :=
  boolEqDecide sLe_iff

theorem inRangeIff (d s e : String) :
    inRange d s e = true ↔
      (toDayStr d ≠ "" ∧ (toDayStr s = "" ∨ toDayStr s ≤ toDayStr d)
        ∧ (toDayStr e = "" ∨ toDayStr d ≤ toDayStr e)) := by
  unfold inRange
  split_ifs with h1 h2 h3
  · exact iff_of_false (by simp) fun hc => hc.1 h1
  · refine iff_of_false (by simp) ?_
    rintro ⟨-, hso, -⟩
    rcases hso with hse | hle
    · exact h2.1 hse
    · exact absurd (sLt_iff.mp h2.2) (not_lt.mpr hle)
  · refine iff_of_false (by simp) ?_
    rintro ⟨-, -, heo⟩
    rcases heo with hee | hle
    · exact h3.1 hee
    · exact absurd (sLt_iff.mp h3.2) (not_lt.mpr hle)
  · refine iff_of_true rfl ⟨h1, ?_, ?_⟩
    · rcases Decidable.em (toDayStr s = "") with hs0 | hs0
      · exact Or.inl hs0
      · exact Or.inr (not_lt.mp fun hlt => h2 ⟨hs0, sLt_iff.mpr hlt⟩)
    · rcases Decidable.em (toDayStr e = "") with he0 | he0
      · exact Or.inl he0
      · exact Or.inr (not_lt.mp fun hlt => h3 ⟨he0, sLt_iff.mpr hlt⟩)

/-- On canonical day keys (length at most 10), `inRange` is exactly the
spec's membership predicate. -/
theorem inRangeEqCanon {d s e : String} (hd : d.data.length ≤ 10)
    (hs : s.data.length ≤ 10) (he : e.data.length ≤ 10) :
    inRange d s e
      = decide (d ≠ "" ∧ (s = "" ∨ s ≤ d) ∧ (e = "" ∨ d ≤ e)) := by
  apply boolEqDecide
  rw [inRangeIff, toDayStrEq hd, toDayStrEq hs, toDayStrEq he]

/-- C6: in explicit-range mode — active when `useCustomRange` is set and the
window carries a non-empty start or end — the filter keeps a record exactly
when its date is non-empty AND (start empty OR date at least start) AND
(end empty OR date at most end), comparing canonical day-key strings
lexicographically. -/
theorem filter_explicit_range {α : Type} (dateOf : α → String) (today : CalDate)
    (w : Window) (arr : List α)
    (hmode : w.useCustomRange = true ∧ (w.customStart ≠ "" ∨ w.customEnd ≠ ""))
    (hs : w.customStart.data.length ≤ 10) (he : w.customEnd.data.length ≤ 10)
    (harr : ∀ r ∈ arr, (dateOf r).data.length ≤ 10) :
    filterByDays dateOf today w arr = arr.filter fun r =>
      decide (dateOf r ≠ "" ∧ (w.customStart = "" ∨ w.customStart ≤ dateOf r)
        ∧ (w.customEnd = "" ∨ dateOf r ≤ w.customEnd)) := by
  cases arr with
  | nil => rfl
  | cons a l =>
    unfold filterByDays
    rw [if_neg (by simp), if_pos hmode]
    exact List.filter_congr fun r hr => inRangeEqCanon (harr r hr) hs he

/-- The explicit window of the C6 scenario. -/
def win6 : Window := ⟨true, "2025-06-03", "2025-06-05", .finite 90⟩

/-- The ten-day series of the C6 scenario. -/
def series6 : List StepsRec :=
  [⟨"2025-06-01", .null, .null, .null⟩, ⟨"2025-06-02", .null, .null, .null⟩,
   ⟨"2025-06-03", .null, .null, .null⟩, ⟨"2025-06-04", .null, .null, .null⟩,
   ⟨"2025-06-05", .null, .null, .null⟩, ⟨"2025-06-06", .null, .null, .null⟩,
   ⟨"2025-06-07", .null, .null, .null⟩, ⟨"2025-06-08", .null, .null, .null⟩,
   ⟨"2025-06-09", .null, .null, .null⟩, ⟨"2025-06-10", .null, .null, .null⟩]

/-- C6 witness: the scenario of the claim — dates 2025-06-01 through
2025-06-10, window 2025-06-03 to 2025-06-05 — keeps exactly the three
records dated 06-03, 06-04, 06-05. -/
theorem filter_explicit_range_witness :
    (win6.useCustomRange = true ∧ (win6.customStart ≠ "" ∨ win6.customEnd ≠ "")) ∧
      (∀ r ∈ series6, (StepsRec.date r).data.length ≤ 10) ∧
      filterByDays StepsRec.date ⟨2025, 10, 11⟩ win6 series6
        = series6.filter (fun r =>
            decide (StepsRec.date r ≠ "" ∧
              (win6.customStart = "" ∨ win6.customStart ≤ StepsRec.date r) ∧
              (win6.customEnd = "" ∨ StepsRec.date r ≤ win6.customEnd))) ∧
      filterByDays StepsRec.date ⟨2025, 10, 11⟩ win6 series6
        = [⟨"2025-06-03", .null, .null, .null⟩, ⟨"2025-06-04", .null, .null, .null⟩,
           ⟨"2025-06-05", .null, .null, .null⟩] := by
  refine ⟨⟨rfl, Or.inl (by decide)⟩, by decide, ?_, by decide⟩
  exact filter_explicit_range StepsRec.date ⟨2025, 10, 11⟩ win6 series6
    ⟨rfl, Or.inl (by decide)⟩ (by decide) (by decide) (by decide)

/-- The empty string sorts strictly below every rendered day key. -/
theorem emptyLtDayKey (t : CalDate) : "" < dayKey t := by
  rw [String.lt_iff_toList_lt]
  exact List.Lex.nil

/-- C7: in relative mode with a finite day count `N` and the wall-clock day
`today` given as a parameter, the filter keeps a record exactly when its
day key is at least the day key of `today` minus `N` calendar days; hence a
record dated exactly `N` days before `today` is kept, one dated `N + 1`
days before is dropped, and a record with an empty date is always
dropped. -/
theorem filter_relative_mode {α : Type} (dateOf : α → String) (today : CalDate)
    (w : Window) (arr : List α) (N : ℕ)
    (hmode : ¬(w.useCustomRange = true ∧ (w.customStart ≠ "" ∨ w.customEnd ≠ "")))
    (hdays : w.rangeDays = .finite N)
    (hv : ValidDate today) (hy2 : today.y ≤ 9999)
    (hy1 : 1 ≤ (subDays today N).y) :
    filterByDays dateOf today w arr
        = arr.filter (fun r => decide (dayKey (subDays today N) ≤ toDayStr (dateOf r)))
      ∧ (∀ r ∈ arr, toDayStr (dateOf r) = dayKey (subDays today N) →
          r ∈ filterByDays dateOf today w arr)
      ∧ (∀ r ∈ arr, toDayStr (dateOf r) = dayKey (subDays today (N + 1)) →
          r ∉ filterByDays dateOf today w arr)
      ∧ (∀ r ∈ arr, dateOf r = "" → r ∉ filterByDays dateOf today w arr) := by
  have heq : filterByDays dateOf today w arr
      = arr.filter (fun r => decide (dayKey (subDays today N) ≤ toDayStr (dateOf r))) := by
    cases arr with
    | nil => rfl
    | cons a l =>
      unfold filterByDays
      rw [if_neg (by simp), if_neg hmode, hdays]
      exact List.filter_congr fun r _ => sLeEqDecide
  refine ⟨heq, ?_, ?_, ?_⟩
  · intro r hr hdate
    rw [heq]
    exact List.mem_filter.mpr ⟨hr, by rw [hdate]; exact decide_eq_true le_rfl⟩
  · intro r hr hdate hmem
    rw [heq] at hmem
    have hle := of_decide_eq_true (List.mem_filter.mp hmem).2
    rw [hdate] at hle
    exact absurd hle (not_le.mpr (subDaysStepLt hv hy2 hy1))
  · intro r hr hdate hmem
    rw [heq] at hmem
    have hle := of_decide_eq_true (List.mem_filter.mp hmem).2
    have he0 : toDayStr "" = "" := rfl
    rw [hdate, he0] at hle
    exact absurd hle (not_le.mpr (emptyLtDayKey _))

/-- The wall-clock day of the C7 witness. -/
def today7 : CalDate := ⟨2025, 10, 11⟩

/-- The relative window of the C7 witness: 30 days back. -/
def win7 : Window := ⟨false, "", "", .finite 30⟩

/-- A record dated exactly 30 days before `today7`. -/
def rec30 : StepsRec := ⟨"2025-09-11", .null, .null, .null⟩

/-- A record dated exactly 31 days before `today7`. -/
def rec31 : StepsRec := ⟨"2025-09-10", .null, .null, .null⟩

/-- C7 witness: the scenario of the claim — with a 30-day window, the
record dated 30 days before today is kept and the record dated 31 days
before is dropped. -/
theorem filter_relative_mode_witness :
    (¬(win7.useCustomRange = true ∧ (win7.customStart ≠ "" ∨ win7.customEnd ≠ ""))) ∧
      ValidDate today7 ∧ today7.y ≤ 9999 ∧ 1 ≤ (subDays today7 30).y ∧
      rec30 ∈ filterByDays StepsRec.date today7 win7 [rec30, rec31] ∧
      rec31 ∉ filterByDays StepsRec.date today7 win7 [rec30, rec31] := by
  have h := filter_relative_mode StepsRec.date today7 win7 [rec30, rec31] 30
    (by decide) rfl (by decide) (by decide) (by decide)
  exact ⟨by decide, by decide, by decide, by decide,
    h.2.1 rec30 (by decide) (by decide),
    h.2.2.1 rec31 (by decide) (by decide)⟩

end Garmin
